import Mathlib

/-!
# Verification of the libbitcoin script interpreter core (src/script.cpp)

A shallow embedding of the script interpreter of `src/script.cpp`:
opcodes, the byte-level script serializer (`parse_script` / `save_script`),
the boolean and numeric casts, the signature-hash builder
(`generate_signature_hash` / `check_signature`), the per-opcode dispatcher
(`run_operation` / `next_step`) and the per-script run loop (`run`).

Machine bytes are modelled as `Nat` (values `0..255`), byte strings as
`List Nat`, stacks as Lean lists with the top of stack at the head.
Fallible paths return `Option`; a `none` marks a point where the C++
performs an out-of-bounds access (undefined behavior), while ordinary
script failure is the boolean `false` carried in the result.

External collaborators (SHA-256, RIPEMD-160, ECDSA, the transaction
double-SHA256) are abstracted as a `Prim` bundle of pluggable functions,
exactly as the spec declares them to be external primitives.
-/

/-- Opcodes of the interpreter, as enumerated by the source's `opcode`
enum (`include/bitcoin/script.hpp`, declared outside `src/`).  `unknown n`
stands for any byte value the source does not name; `run_operation`
rejects it through its `default` case. -/
inductive Opcode where
  | zero
  | special
  | pushdata1
  | pushdata2
  | pushdata4
  | negative_1
  | reserved
  | op_1 | op_2 | op_3 | op_4 | op_5 | op_6 | op_7 | op_8
  | op_9 | op_10 | op_11 | op_12 | op_13 | op_14 | op_15 | op_16
  | nop
  | ver
  | if_
  | notif
  | verif
  | vernotif
  | else_
  | endif
  | verify
  | toaltstack
  | fromaltstack
  | ifdup
  | depth
  | drop
  | dup
  | nip
  | over
  | pick
  | roll
  | size
  | reserved1
  | reserved2
  | not_
  | boolor
  | min
  | sha256
  | hash160
  | equal
  | equalverify
  | add
  | greaterthanorequal
  | codeseparator
  | checksig
  | checksigverify
  | checkmultisig
  | checkmultisigverify
  | op_nop1 | op_nop2 | op_nop3 | op_nop4 | op_nop5
  | op_nop6 | op_nop7 | op_nop8 | op_nop9 | op_nop10
  | bad_operation
  | raw_data
  | unknown (n : Nat)

/-- Modelled from the spec: the numeric value of each opcode, from the
`opcode` enum of `include/bitcoin/script.hpp` (not under `src/`); these
are the standard Bitcoin wire byte values the spec's serializer section
relies on (`PUSHDATA1` = 76, `OP_1..OP_16` = 81..96, ...). -/
def Opcode.toByte : Opcode → Nat
  | .zero => 0
  | .special => 1
  | .pushdata1 => 76
  | .pushdata2 => 77
  | .pushdata4 => 78
  | .negative_1 => 79
  | .reserved => 80
  | .op_1 => 81 | .op_2 => 82 | .op_3 => 83 | .op_4 => 84
  | .op_5 => 85 | .op_6 => 86 | .op_7 => 87 | .op_8 => 88
  | .op_9 => 89 | .op_10 => 90 | .op_11 => 91 | .op_12 => 92
  | .op_13 => 93 | .op_14 => 94 | .op_15 => 95 | .op_16 => 96
  | .nop => 97
  | .ver => 98
  | .if_ => 99
  | .notif => 100
  | .verif => 101
  | .vernotif => 102
  | .else_ => 103
  | .endif => 104
  | .verify => 105
  | .toaltstack => 107
  | .fromaltstack => 108
  | .ifdup => 115
  | .depth => 116
  | .drop => 117
  | .dup => 118
  | .nip => 119
  | .over => 120
  | .pick => 121
  | .roll => 122
  | .size => 130
  | .equal => 135
  | .equalverify => 136
  | .reserved1 => 137
  | .reserved2 => 138
  | .not_ => 145
  | .add => 147
  | .boolor => 155
  | .greaterthanorequal => 162
  | .min => 163
  | .sha256 => 168
  | .hash160 => 169
  | .codeseparator => 171
  | .checksig => 172
  | .checksigverify => 173
  | .checkmultisig => 174
  | .checkmultisigverify => 175
  | .op_nop1 => 176 | .op_nop2 => 177 | .op_nop3 => 178
  | .op_nop4 => 179 | .op_nop5 => 180 | .op_nop6 => 181
  | .op_nop7 => 182 | .op_nop8 => 183 | .op_nop9 => 184
  | .op_nop10 => 185
  | .bad_operation => 186
  | .raw_data => 187
  | .unknown n => n

/-- An injective tag for `Opcode`, used to derive decidable equality:
named opcodes go to `(0, wire byte)` (those bytes are pairwise distinct),
`unknown n` to `(1, n)`. -/
def Opcode.tagOf : Opcode → Nat × Nat
  | .unknown n => (1, n)
  | c => (0, c.toByte)

/-- Left inverse of `Opcode.tagOf`. -/
def Opcode.untag : Nat × Nat → Opcode
  | (1, n) => .unknown n
  | (_, b) =>
    match b with
    | 0 => .zero
    | 1 => .special
    | 76 => .pushdata1
    | 77 => .pushdata2
    | 78 => .pushdata4
    | 79 => .negative_1
    | 80 => .reserved
    | 81 => .op_1 | 82 => .op_2 | 83 => .op_3 | 84 => .op_4
    | 85 => .op_5 | 86 => .op_6 | 87 => .op_7 | 88 => .op_8
    | 89 => .op_9 | 90 => .op_10 | 91 => .op_11 | 92 => .op_12
    | 93 => .op_13 | 94 => .op_14 | 95 => .op_15 | 96 => .op_16
    | 97 => .nop
    | 98 => .ver
    | 99 => .if_
    | 100 => .notif
    | 101 => .verif
    | 102 => .vernotif
    | 103 => .else_
    | 104 => .endif
    | 105 => .verify
    | 107 => .toaltstack
    | 108 => .fromaltstack
    | 115 => .ifdup
    | 116 => .depth
    | 117 => .drop
    | 118 => .dup
    | 119 => .nip
    | 120 => .over
    | 121 => .pick
    | 122 => .roll
    | 130 => .size
    | 135 => .equal
    | 136 => .equalverify
    | 137 => .reserved1
    | 138 => .reserved2
    | 145 => .not_
    | 147 => .add
    | 155 => .boolor
    | 162 => .greaterthanorequal
    | 163 => .min
    | 168 => .sha256
    | 169 => .hash160
    | 171 => .codeseparator
    | 172 => .checksig
    | 173 => .checksigverify
    | 174 => .checkmultisig
    | 175 => .checkmultisigverify
    | 176 => .op_nop1 | 177 => .op_nop2 | 178 => .op_nop3
    | 179 => .op_nop4 | 180 => .op_nop5 | 181 => .op_nop6
    | 182 => .op_nop7 | 183 => .op_nop8 | 184 => .op_nop9
    | 185 => .op_nop10
    | 186 => .bad_operation
    | 187 => .raw_data
    | n => .unknown n

theorem Opcode.untag_tagOf : Function.LeftInverse Opcode.untag Opcode.tagOf := by
  intro c
  cases c <;> rfl

instance : DecidableEq Opcode :=
  Opcode.untag_tagOf.injective.decidableEq

/-- The opcode a non-push raw byte denotes: the `static_cast<opcode>` of
`parse_script` restricted to bytes above 78 (bytes 0..78 are handled by
the parser's push branches before this map is consulted). -/
def Opcode.fromByte (b : Nat) : Opcode :=
  match b with
  | 79 => .negative_1
  | 80 => .reserved
  | 81 => .op_1 | 82 => .op_2 | 83 => .op_3 | 84 => .op_4
  | 85 => .op_5 | 86 => .op_6 | 87 => .op_7 | 88 => .op_8
  | 89 => .op_9 | 90 => .op_10 | 91 => .op_11 | 92 => .op_12
  | 93 => .op_13 | 94 => .op_14 | 95 => .op_15 | 96 => .op_16
  | 97 => .nop
  | 98 => .ver
  | 99 => .if_
  | 100 => .notif
  | 101 => .verif
  | 102 => .vernotif
  | 103 => .else_
  | 104 => .endif
  | 105 => .verify
  | 107 => .toaltstack
  | 108 => .fromaltstack
  | 115 => .ifdup
  | 116 => .depth
  | 117 => .drop
  | 118 => .dup
  | 119 => .nip
  | 120 => .over
  | 121 => .pick
  | 122 => .roll
  | 130 => .size
  | 135 => .equal
  | 136 => .equalverify
  | 137 => .reserved1
  | 138 => .reserved2
  | 145 => .not_
  | 147 => .add
  | 155 => .boolor
  | 162 => .greaterthanorequal
  | 163 => .min
  | 168 => .sha256
  | 169 => .hash160
  | 171 => .codeseparator
  | 172 => .checksig
  | 173 => .checksigverify
  | 174 => .checkmultisig
  | 175 => .checkmultisigverify
  | 176 => .op_nop1 | 177 => .op_nop2 | 178 => .op_nop3
  | 179 => .op_nop4 | 180 => .op_nop5 | 181 => .op_nop6
  | 182 => .op_nop7 | 183 => .op_nop8 | 184 => .op_nop9
  | 185 => .op_nop10
  | n => .unknown n

theorem Opcode.toByte_fromByte (b : Nat) : (Opcode.fromByte b).toByte = b := by
  unfold Opcode.fromByte
  split <;> rfl

theorem Opcode.fromByte_ne_raw_data (b : Nat) : Opcode.fromByte b ≠ .raw_data := by
  unfold Opcode.fromByte
  split <;> simp

theorem Opcode.fromByte_ne_special (b : Nat) : Opcode.fromByte b ≠ .special := by
  unfold Opcode.fromByte
  split <;> simp

/-- An operation: an opcode with its (possibly empty) pushed payload,
the source's `struct operation`. -/
structure Operation where
  code : Opcode
  data : List Nat
deriving DecidableEq

/-! ## Numeric codec and the boolean cast -/

/-- The boolean cast of a stack item (`cast_to_bool` in the source): scan
the bytes; at the first non-zero byte return `true`, unless that byte is
the final one and equals `0x80` (negative zero), which yields `false`;
all-zero (or empty) items are `false`. -/
def cast_to_bool : List Nat → Bool
  | [] => false
  | [x] => if x ≠ 0 then (if x = 128 then false else true) else false
  | x :: y :: rest => if x ≠ 0 then true else cast_to_bool (y :: rest)

/-- Modelled from the spec: the signed little-endian value of a byte
string, with the most significant bit of the last byte as the sign flag
(the `big_number` codec of `include/bitcoin/big_number.hpp`, which is not
under `src/`; the spec fixes this encoding in its numeric-codec section). -/
def bytes_to_number : List Nat → Int
  | [] => 0
  | [x] => if 128 ≤ x then -((x - 128 : Nat) : Int) else (x : Int)
  | x :: y :: rest => (x : Int) + 256 * bytes_to_number (y :: rest)

/-- Little-endian base-256 digits of a natural number, least significant
first, with no trailing zero digit. -/
def natToLE : Nat → List Nat
  | 0 => []
  | n + 1 => (n + 1) % 256 :: natToLE ((n + 1) / 256)
decreasing_by exact Nat.div_lt_self (Nat.succ_pos n) (by decide)

/-- Modelled from the spec: the canonical minimal little-endian signed
serialization of an integer (`big_number::data()`): magnitude bytes in
little-endian order; if the top magnitude byte already has bit `0x80`
set, a sign byte is appended, otherwise a negative sign sets bit `0x80`
of the top byte. -/
def number_to_bytes (n : Int) : List Nat :=
  let mag := natToLE n.natAbs
  match mag.getLast? with
  | none => []
  | some top =>
      if 128 ≤ top then mag ++ [if n < 0 then 128 else 0]
      else if n < 0 then mag.dropLast ++ [top + 128]
      else mag

/-- Modelled from the spec: `big_number::uint32()` applied to a value set
from at most four bytes — the count conversion used by `read_section`. -/
def bn_uint32 (b : List Nat) : Nat :=
  ((bytes_to_number b) % (4294967296 : Int)).toNat

/-- The stack encoding of `true` pushed by comparison operators
(`stack_true_value`). -/
def stack_true_value : List Nat := [1]

/-- The stack encoding of `false` pushed by comparison operators
(`stack_false_value`). -/
def stack_false_value : List Nat := []

/-! ## Transaction data model and external primitives -/

/-- A transaction input (external data model: `message::transaction_input`).
The previous-output reference is opaque to the interpreter. -/
structure TxIn where
  previous_output : Nat
  input_script : List Operation
  sequence : Nat
deriving DecidableEq

/-- A transaction output (external data model: `message::transaction_output`). -/
structure TxOut where
  value : Nat
  output_script : List Operation
deriving DecidableEq

/-- A transaction (external data model: `message::transaction`). -/
structure Tx where
  version : Nat
  inputs : List TxIn
  outputs : List TxOut
  locktime : Nat
deriving DecidableEq

/-- The external primitives the interpreter consumes (SHA-256, combined
RIPEMD-160 of SHA-256, ECDSA public-key loading and verification, and the
double-SHA256 transaction hash `hash_transaction`): pluggable
collaborators, abstracted as functions. -/
structure Prim where
  sha256h : List Nat → List Nat
  hash160h : List Nat → List Nat
  setPublicKeyOk : List Nat → Bool
  ecdsaVerify : List Nat → List Nat → List Nat → Bool
  hashTransaction : Tx → Nat → List Nat

/-- The distinguished all-zero 32-byte digest (`null_hash`). -/
def nullHash : List Nat := List.replicate 32 0

/-- The `sighash` mode constants (from `include/bitcoin/constants.hpp`,
fixed by the spec: `ALL = 1`, `NONE = 2`, `SINGLE = 3`,
`ANYONE_CAN_PAY = 0x80`). -/
def sighash_all : Nat := 1

/-- Sighash `NONE` selector value. -/
def sighash_none : Nat := 2

/-- Sighash `SINGLE` selector value. -/
def sighash_single : Nat := 3

/-- Sighash `ANYONE_CAN_PAY` flag bit. -/
def sighash_anyone_can_pay : Nat := 128

/-- Zero the `sequence` of every input except `except_input`
(`nullify_input_sequences`). -/
def nullify_input_sequences (inputs : List TxIn) (except_input : Nat) : List TxIn :=
  inputs.mapIdx fun j inp => if j = except_input then inp else { inp with sequence := 0 }

/-- The mode-dependent transaction rewrite of the sighash construction:
`NONE` clears the outputs, in-range `SINGLE` truncates the outputs to
`input_index + 1` and replaces them all with `{value = ~0, script =
empty}`; both zero every other input's sequence. -/
def sighash_mode_rewrite (tx : Tx) (input_index : Nat) (mode : Nat) : Tx :=
  if mode = sighash_none then
    { tx with outputs := [],
              inputs := nullify_input_sequences tx.inputs input_index }
  else if mode = sighash_single then
    { tx with
        outputs := List.replicate (input_index + 1)
          { value := 18446744073709551615, output_script := [] },
        inputs := nullify_input_sequences tx.inputs input_index }
  else tx

/-- The `ANYONE_CAN_PAY` step: copy `inputs[input_index]` to position 0
and resize the inputs to one element; `none` models the out-of-bounds
read when `input_index` is past the end. -/
def sighash_acp_rewrite (tx : Tx) (input_index : Nat) : Option Tx :=
  match tx.inputs[input_index]? with
  | none => none
  | some inp => some { tx with inputs := [inp] }

/-- The final steps of the sighash construction: the defensive range
check (which yields the zero digest), then blank every input script,
install the scriptcode at `input_index` and hash. -/
def sighash_finish (prim : Prim) (tx : Tx) (input_index : Nat)
    (script_code : List Operation) (hash_type : Nat) : List Nat :=
  if tx.inputs.length ≤ input_index then nullHash
  else
    let blanked := tx.inputs.mapIdx fun j inp =>
      { inp with input_script := if j = input_index then script_code else [] }
    prim.hashTransaction { tx with inputs := blanked } hash_type

/-- Sighash construction (`script::generate_signature_hash`): rewrite a
copy of the transaction according to the mode in the low five bits of
`hash_type` and the `ANYONE_CAN_PAY` bit, blank every input script,
install `script_code` at `input_index`, and hash.  Returns the all-zero
digest for the out-of-range `SINGLE` case and for the defensive
input-range check; returns `none` where the C++ indexes `inputs` out of
bounds (the `ANYONE_CAN_PAY` copy `inputs[0] = inputs[input_index]` with
`input_index` past the end — undefined behavior). -/
def generate_signature_hash (prim : Prim) (tx : Tx) (input_index : Nat)
    (script_code : List Operation) (hash_type : Nat) : Option (List Nat) :=
  let mode := hash_type &&& 31
  if mode = sighash_single ∧ tx.outputs.length ≤ input_index then
    some nullHash
  else
    let tx1 := sighash_mode_rewrite tx input_index mode
    match (if hash_type &&& sighash_anyone_can_pay ≠ 0
           then sighash_acp_rewrite tx1 input_index
           else some tx1) with
    | none => none
    | some tx2 =>
        some (sighash_finish prim tx2 input_index script_code hash_type)

/-- Signature verification against a transaction (`check_signature`):
load the public key, split the trailing `hash_type` byte off the
signature, build the digest, fail on the zero sentinel, otherwise call
ECDSA.  Returns `none` where the C++ calls `signature.back()` on an empty
vector (undefined behavior). -/
def check_signature (prim : Prim) (signature pubkey : List Nat)
    (script_code : List Operation) (tx : Tx) (input_index : Nat) : Option Bool :=
  if prim.setPublicKeyOk pubkey = false then some false
  else
    match signature.getLast? with
    | none => none
    | some hash_type =>
        match generate_signature_hash prim tx input_index script_code hash_type with
        | none => none
        | some digest =>
            if digest = nullHash then some false
            else some (prim.ecdsaVerify pubkey digest signature.dropLast)

/-! ## Evaluation state and per-opcode operations -/

/-- The mutable evaluation state of a `script`: the two data stacks (top
of stack at the head), the conditional stack (innermost flag at the
head), and the `codehash_begin_` cursor as an index into the operation
sequence. -/
structure RunState where
  stack : List (List Nat)
  altStack : List (List Nat)
  condStack : List Bool
  codehashBegin : Nat
deriving DecidableEq

/-- Push a data item (`stack_.push_back`). -/
def stackPush (d : List Nat) (st : RunState) : RunState :=
  { st with stack := d :: st.stack }

/-- Invert the innermost conditional flag (`conditional_stack::else_`). -/
def flipTop : List Bool → List Bool
  | [] => []
  | b :: t => (!b) :: t

/-- The disabled-opcode hook (`opcode_is_disabled`): the source's switch
has every case commented out, so no opcode is disabled. -/
def opcode_is_disabled (_ : Opcode) : Bool := false

/-- The four conditional-control opcodes, which execute even inside a
failed branch. -/
def is_condition_opcode (c : Opcode) : Bool :=
  c = Opcode.if_ ∨ c = Opcode.notif ∨ c = Opcode.else_ ∨ c = Opcode.endif

/-- `op_negative_1`: push the encoding of −1. -/
def op_negative_1 (st : RunState) : Bool × RunState :=
  (true, stackPush (number_to_bytes (-1)) st)

/-- `op_x`: push the encoding of `code − op_1 + 1`. -/
def op_x (code : Opcode) (st : RunState) : Bool × RunState :=
  (true, stackPush (number_to_bytes (code.toByte - 80)) st)

/-- `op_if`: inside a failed branch open a `false` frame without popping;
otherwise pop one item and open a frame with its boolean cast. -/
def op_if (st : RunState) : Bool × RunState :=
  if st.condStack.contains false then
    (true, { st with condStack := false :: st.condStack })
  else
    match st.stack with
    | [] => (false, st)
    | top :: rest =>
        (true, { st with stack := rest, condStack := cast_to_bool top :: st.condStack })

/-- `op_notif`: `op_if` followed by an inversion of the opened frame. -/
def op_notif (st : RunState) : Bool × RunState :=
  match op_if st with
  | (false, st') => (false, st')
  | (true, st') => (true, { st' with condStack := flipTop st'.condStack })

/-- `op_else`: fail on an empty conditional stack, else invert the top
frame. -/
def op_else (st : RunState) : Bool × RunState :=
  if st.condStack.isEmpty then (false, st)
  else (true, { st with condStack := flipTop st.condStack })

/-- `op_endif`: fail on an empty conditional stack, else close the top
frame. -/
def op_endif (st : RunState) : Bool × RunState :=
  if st.condStack.isEmpty then (false, st)
  else (true, { st with condStack := st.condStack.tail })

/-- `op_verify`: fail unless the top item casts to true; pop it. -/
def op_verify (st : RunState) : Bool × RunState :=
  match st.stack with
  | [] => (false, st)
  | top :: rest =>
      if cast_to_bool top then (true, { st with stack := rest }) else (false, st)

/-- `op_toaltstack`: move the top item to the alternate stack. -/
def op_toaltstack (st : RunState) : Bool × RunState :=
  match st.stack with
  | [] => (false, st)
  | top :: rest => (true, { st with stack := rest, altStack := top :: st.altStack })

/-- `op_fromaltstack`: move the top alternate item back. -/
def op_fromaltstack (st : RunState) : Bool × RunState :=
  match st.altStack with
  | [] => (false, st)
  | top :: rest => (true, { st with stack := top :: st.stack, altStack := rest })

/-- `op_ifdup`: duplicate the top item when it casts to true. -/
def op_ifdup (st : RunState) : Bool × RunState :=
  match st.stack with
  | [] => (false, st)
  | top :: _ => if cast_to_bool top then (true, stackPush top st) else (true, st)

/-- `op_depth`: push the encoded stack size. -/
def op_depth (st : RunState) : Bool × RunState :=
  (true, stackPush (number_to_bytes st.stack.length) st)

/-- `op_drop`: pop the top item. -/
def op_drop (st : RunState) : Bool × RunState :=
  match st.stack with
  | [] => (false, st)
  | _ :: rest => (true, { st with stack := rest })

/-- `op_dup`: push a copy of the top item. -/
def op_dup (st : RunState) : Bool × RunState :=
  match st.stack with
  | [] => (false, st)
  | top :: _ => (true, stackPush top st)

/-- `op_nip`: erase the second-from-top item. -/
def op_nip (st : RunState) : Bool × RunState :=
  match st.stack with
  | a :: _ :: rest => (true, { st with stack := a :: rest })
  | _ => (false, st)

/-- `op_over`: push a copy of the second-from-top item. -/
def op_over (st : RunState) : Bool × RunState :=
  match st.stack with
  | a :: b :: rest => (true, { st with stack := b :: a :: b :: rest })
  | _ => (false, st)

/-- `pick_roll_impl`: pop a count `n`, require `n` below the remaining
depth, then copy (PICK) or move (ROLL) the item at depth `n + 1` to the
top. -/
def pick_roll_impl (is_roll : Bool) (st : RunState) : Bool × RunState :=
  match st.stack with
  | [] => (false, st)
  | nb :: rest =>
      if rest.isEmpty then (false, st)
      else if 4 < nb.length then (false, st)
      else
        let n := bn_uint32 nb
        if rest.length ≤ n then (false, { st with stack := rest })
        else
          let item := rest.getD n []
          if is_roll then (true, { st with stack := item :: rest.eraseIdx n })
          else (true, { st with stack := item :: rest })

/-- `op_pick`. -/
def op_pick (st : RunState) : Bool × RunState := pick_roll_impl false st

/-- `op_roll`. -/
def op_roll (st : RunState) : Bool × RunState := pick_roll_impl true st

/-- `op_size`: push the encoded byte length of the (unpopped) top item. -/
def op_size (st : RunState) : Bool × RunState :=
  match st.stack with
  | [] => (false, st)
  | top :: _ => (true, stackPush (number_to_bytes top.length) st)

/-- `op_not`: pop one number; push whether it is zero. -/
def op_not (st : RunState) : Bool × RunState :=
  match st.stack with
  | [] => (false, st)
  | top :: rest =>
      if 4 < top.length then (false, { st with stack := rest })
      else
        (true, { st with stack :=
          number_to_bytes (if bytes_to_number top = 0 then 1 else 0) :: rest })

/-- `arithmetic_start`: require two items; pop operand `a` then operand
`b`, failing (with the pops retained) if either exceeds four bytes. -/
def arithmetic_start (st : RunState) : Except RunState ((Int × Int) × RunState) :=
  match st.stack with
  | a :: b :: rest =>
      if 4 < a.length then .error { st with stack := b :: rest }
      else if 4 < b.length then .error { st with stack := rest }
      else .ok ((bytes_to_number a, bytes_to_number b), { st with stack := rest })
  | _ => .error st

/-- `op_boolor`: push whether either operand is non-zero. -/
def op_boolor (st : RunState) : Bool × RunState :=
  match arithmetic_start st with
  | .error st' => (false, st')
  | .ok ((a, b), st') =>
      (true, stackPush (number_to_bytes (if a ≠ 0 ∨ b ≠ 0 then 1 else 0)) st')

/-- `op_min`: push the (re-encoded) smaller operand. -/
def op_min (st : RunState) : Bool × RunState :=
  match arithmetic_start st with
  | .error st' => (false, st')
  | .ok ((a, b), st') =>
      (true, stackPush (number_to_bytes (if a < b then a else b)) st')

/-- `op_sha256`: pop one item and push its SHA-256 digest. -/
def op_sha256 (prim : Prim) (st : RunState) : Bool × RunState :=
  match st.stack with
  | [] => (false, st)
  | top :: rest => (true, { st with stack := prim.sha256h top :: rest })

/-- `op_hash160`: pop one item and push RIPEMD-160 of its SHA-256. -/
def op_hash160 (prim : Prim) (st : RunState) : Bool × RunState :=
  match st.stack with
  | [] => (false, st)
  | top :: rest => (true, { st with stack := prim.hash160h top :: rest })

/-- `op_equal`: pop two items and push the boolean singleton encoding of
their equality. -/
def op_equal (st : RunState) : Bool × RunState :=
  match st.stack with
  | a :: b :: rest =>
      (true, { st with stack :=
        (if a = b then stack_true_value else stack_false_value) :: rest })
  | _ => (false, st)

/-- `op_equalverify`: pop two items and return their equality directly. -/
def op_equalverify (st : RunState) : Bool × RunState :=
  match st.stack with
  | a :: b :: rest => (a = b, { st with stack := rest })
  | _ => (false, st)

/-- `op_add`: push the sum of two popped operands. -/
def op_add (st : RunState) : Bool × RunState :=
  match arithmetic_start st with
  | .error st' => (false, st')
  | .ok ((a, b), st') => (true, stackPush (number_to_bytes (a + b)) st')

/-- `op_greaterthanorequal`: push the boolean encoding of `a ≥ b`. -/
def op_greaterthanorequal (st : RunState) : Bool × RunState :=
  match arithmetic_start st with
  | .error st' => (false, st')
  | .ok ((a, b), st') =>
      (true, stackPush (number_to_bytes (if b ≤ a then 1 else 0)) st')

/-! ## Signature-check operators -/

/-- Scriptcode construction for `op_checksigverify`: every operation from
`codehash_begin_` to the end, except `CODESEPARATOR` and any operation
whose data equals the signature being checked. -/
def checksig_script_code (ops : List Operation) (chb : Nat)
    (signature : List Nat) : List Operation :=
  (ops.drop chb).filter fun op =>
    if op.data = signature ∨ op.code = Opcode.codeseparator then false else true

/-- `op_checksigverify`: pop a public key then a signature, build the
scriptcode and verify. -/
def op_checksigverify (prim : Prim) (tx : Tx) (input_index : Nat)
    (ops : List Operation) (st : RunState) : Option (Bool × RunState) :=
  match st.stack with
  | pubkey :: signature :: rest =>
      match check_signature prim signature pubkey
          (checksig_script_code ops st.codehashBegin signature) tx input_index with
      | none => none
      | some b => some (b, { st with stack := rest })
  | _ => some (false, st)

/-- `op_checksig`: as the verify form, but push the boolean singleton
result and succeed. -/
def op_checksig (prim : Prim) (tx : Tx) (input_index : Nat)
    (ops : List Operation) (st : RunState) : Option (Bool × RunState) :=
  match op_checksigverify prim tx input_index ops st with
  | none => none
  | some (b, st') =>
      some (true, stackPush (if b then stack_true_value else stack_false_value) st')

/-- `read_section`: pop a count (as a number of at most four bytes), then
pop that many items.  Returns the section and the remaining stack; on
failure the items popped so far stay popped, as in the source. -/
def read_section (stack : List (List Nat)) :
    Option (List (List Nat)) × List (List Nat) :=
  match stack with
  | [] => (none, [])
  | countBytes :: rest =>
      if 4 < countBytes.length then (none, rest)
      else
        let count := bn_uint32 countBytes
        if rest.length < count then (none, rest)
        else (some (rest.take count), rest.drop count)

/-- Scriptcode construction for `op_checkmultisigverify`: every operation
from `codehash_begin_` to the end, except `CODESEPARATOR` and any
operation whose data is one of the popped signatures. -/
def multisig_script_code (ops : List Operation) (chb : Nat)
    (signatures : List (List Nat)) : List Operation :=
  (ops.drop chb).filter fun op =>
    if op.code = Opcode.codeseparator ∨ op.data ∈ signatures then false else true

/-- The inner loop of `op_checkmultisigverify` for one signature: scan
the remaining public keys; dereference the current key *before* any
exhaustion check (so an empty list is an out-of-bounds read, `none`); on
a verifying key return the remaining keys from that key inclusive
(`pubkey_current = pubkey_iter`); after advancing past the last key
report exhaustion (`some none`, which fails the whole operator). -/
def scanKeys (ver : List Nat → List Nat → Option Bool) (s : List Nat) :
    List (List Nat) → Option (Option (List (List Nat)))
  | [] => none
  | pk :: pks =>
      match ver s pk with
      | none => none
      | some true => some (some (pk :: pks))
      | some false => if pks.isEmpty then some none else scanKeys ver s pks

/-- The signature-matching loop of `op_checkmultisigverify`: walk the
signatures in order, scanning forward through the public keys from the
most recent match (inclusive); `some false` when the keys are exhausted
before a signature matches, `none` on the out-of-bounds read. -/
def matchSigs (ver : List Nat → List Nat → Option Bool) :
    List (List Nat) → List (List Nat) → Option Bool
  | [], _ => some true
  | s :: ss, pks =>
      match scanKeys ver s pks with
      | none => none
      | some none => some false
      | some (some pks') => matchSigs ver ss pks'

/-- `op_checkmultisigverify`: pop the pubkey section, then the signature
section, build the scriptcode and run the matching loop.  No further
stack item is popped. -/
def op_checkmultisigverify (prim : Prim) (tx : Tx) (input_index : Nat)
    (ops : List Operation) (st : RunState) : Option (Bool × RunState) :=
  match read_section st.stack with
  | (none, rem) => some (false, { st with stack := rem })
  | (some pubkeys, rem1) =>
      match read_section rem1 with
      | (none, rem2) => some (false, { st with stack := rem2 })
      | (some signatures, rem2) =>
          let sc := multisig_script_code ops st.codehashBegin signatures
          match matchSigs
              (fun s pk => check_signature prim s pk sc tx input_index)
              signatures pubkeys with
          | none => none
          | some b => some (b, { st with stack := rem2 })

/-- `op_checkmultisig`: as the verify form, but push the boolean
singleton result and succeed. -/
def op_checkmultisig (prim : Prim) (tx : Tx) (input_index : Nat)
    (ops : List Operation) (st : RunState) : Option (Bool × RunState) :=
  match op_checkmultisigverify prim tx input_index ops st with
  | none => none
  | some (b, st') =>
      some (true, stackPush (if b then stack_true_value else stack_false_value) st')

/-! ## Dispatcher and run loop -/

/-- `script::run_operation`: the total dispatch over opcodes.  Push
opcodes and `CODESEPARATOR` are handled earlier in `next_step` (the
source asserts and returns true if they reach here); reserved and unknown
opcodes fail. -/
def run_operation (prim : Prim) (tx : Tx) (input_index : Nat)
    (ops : List Operation) (op : Operation) (st : RunState) :
    Option (Bool × RunState) :=
  match op.code with
  | .zero | .special | .pushdata1 | .pushdata2 | .pushdata4 => some (true, st)
  | .negative_1 => some (op_negative_1 st)
  | .reserved => some (false, st)
  | .op_1 | .op_2 | .op_3 | .op_4 | .op_5 | .op_6 | .op_7 | .op_8
  | .op_9 | .op_10 | .op_11 | .op_12 | .op_13 | .op_14 | .op_15 | .op_16 =>
      some (op_x op.code st)
  | .nop => some (true, st)
  | .ver => some (false, st)
  | .if_ => some (op_if st)
  | .notif => some (op_notif st)
  | .verif | .vernotif => some (false, st)
  | .else_ => some (op_else st)
  | .endif => some (op_endif st)
  | .verify => some (op_verify st)
  | .toaltstack => some (op_toaltstack st)
  | .fromaltstack => some (op_fromaltstack st)
  | .ifdup => some (op_ifdup st)
  | .depth => some (op_depth st)
  | .drop => some (op_drop st)
  | .dup => some (op_dup st)
  | .nip => some (op_nip st)
  | .over => some (op_over st)
  | .pick => some (op_pick st)
  | .roll => some (op_roll st)
  | .size => some (op_size st)
  | .reserved1 | .reserved2 => some (false, st)
  | .not_ => some (op_not st)
  | .boolor => some (op_boolor st)
  | .min => some (op_min st)
  | .sha256 => some (op_sha256 prim st)
  | .hash160 => some (op_hash160 prim st)
  | .equal => some (op_equal st)
  | .equalverify => some (op_equalverify st)
  | .add => some (op_add st)
  | .greaterthanorequal => some (op_greaterthanorequal st)
  | .codeseparator => some (true, st)
  | .checksig => op_checksig prim tx input_index ops st
  | .checksigverify => op_checksigverify prim tx input_index ops st
  | .checkmultisig => op_checkmultisig prim tx input_index ops st
  | .checkmultisigverify => op_checkmultisigverify prim tx input_index ops st
  | .op_nop1 | .op_nop2 | .op_nop3 | .op_nop4 | .op_nop5
  | .op_nop6 | .op_nop7 | .op_nop8 | .op_nop9 | .op_nop10 => some (true, st)
  | .raw_data => some (false, st)
  | .bad_operation => some (false, st)
  | .unknown _ => some (false, st)

/-- `script::next_step`: skip non-condition opcodes inside a failed
branch; handle pushes inline; `CODESEPARATOR` moves `codehash_begin_` to
the current position `pos`; everything else goes through
`run_operation`. -/
def next_step (prim : Prim) (tx : Tx) (input_index : Nat)
    (ops : List Operation) (pos : Nat) (st : RunState) (op : Operation) :
    Option (Bool × RunState) :=
  if opcode_is_disabled op.code then some (false, st)
  else if st.condStack.contains false && !(is_condition_opcode op.code) then
    some (true, st)
  else if op.code = Opcode.zero then some (true, stackPush [] st)
  else if op.code = Opcode.special ∨ op.code = Opcode.pushdata1 ∨
      op.code = Opcode.pushdata2 ∨ op.code = Opcode.pushdata4 then
    some (true, stackPush op.data st)
  else if op.code = Opcode.codeseparator then
    some (true, { st with codehashBegin := pos })
  else run_operation prim tx input_index ops op st

/-- The iteration of `script::run`: step each remaining operation,
stopping at the first failure; `pos` is the index of the head of
`remaining` within `ops`. -/
def runLoop (prim : Prim) (tx : Tx) (input_index : Nat) (ops : List Operation) :
    List Operation → Nat → RunState → Option (Bool × RunState)
  | [], _, st => some (true, st)
  | op :: remaining, pos, st =>
      match next_step prim tx input_index ops pos st op with
      | none => none
      | some (false, st') => some (false, st')
      | some (true, st') => runLoop prim tx input_index ops remaining (pos + 1) st'

/-- `script::run` (the per-script overload): clear the alternate and
conditional stacks and the codehash cursor, execute every operation, and
fail if the conditional stack is not closed at the end. -/
def run (prim : Prim) (tx : Tx) (input_index : Nat) (ops : List Operation)
    (stack : List (List Nat)) : Option (Bool × RunState) :=
  match runLoop prim tx input_index ops ops 0 ⟨stack, [], [], 0⟩ with
  | none => none
  | some (false, st) => some (false, st)
  | some (true, st) =>
      if st.condStack = [] then some (true, st) else some (false, st)

/-! ## Script serializer -/

/-- The three-valued outcome of the parse walk: `ok` with the operation
stream, `fail` where the source detects a premature end of script inside
a push payload and returns `script()` (the empty script), and `ub` where
the source advances its iterator past the end of the raw bytes and
dereferences it (the unchecked length-prefix reads of
`number_of_bytes_from_opcode` / `read_back_from_iterator`). -/
inductive PResult where
  | ub
  | fail
  | ok (ops : List Operation)
deriving DecidableEq

/-- Prepend an operation to a parse continuation; failures propagate
whole (the source returns `script()` from `parse_script` itself). -/
def consRes (op : Operation) : PResult → PResult
  | .ub => .ub
  | .fail => .fail
  | .ok ops => .ok (op :: ops)

/-- The walk of `parse_script`: byte `0` is `ZERO`; bytes `1..75` are
`SPECIAL` with that many payload bytes; `76/77/78` are `PUSHDATA1/2/4`
with a little-endian length prefix of that width (read without any
end-of-input check); every other byte maps through `Opcode.fromByte`.  A
zero announced length pushes the operation with empty data; a payload
cut short is `fail`; a length prefix cut short is `ub`. -/
def parseLoop : List Nat → PResult
  | [] => .ok []
  | b :: rest =>
      if b = 0 then consRes ⟨.zero, []⟩ (parseLoop rest)
      else if b ≤ 75 then
        if rest.length < b then .fail
        else consRes ⟨.special, rest.take b⟩ (parseLoop (rest.drop b))
      else if b = 76 then
        if rest.length < 1 then .ub
        else
          let n := rest.getD 0 0
          let rest2 := rest.drop 1
          if n = 0 then consRes ⟨.pushdata1, []⟩ (parseLoop rest2)
          else if rest2.length < n then .fail
          else consRes ⟨.pushdata1, rest2.take n⟩ (parseLoop (rest2.drop n))
      else if b = 77 then
        if rest.length < 2 then .ub
        else
          let n := rest.getD 0 0 + 256 * rest.getD 1 0
          let rest2 := rest.drop 2
          if n = 0 then consRes ⟨.pushdata2, []⟩ (parseLoop rest2)
          else if rest2.length < n then .fail
          else consRes ⟨.pushdata2, rest2.take n⟩ (parseLoop (rest2.drop n))
      else if b = 78 then
        if rest.length < 4 then .ub
        else
          let n := rest.getD 0 0 + 256 * (rest.getD 1 0
            + 256 * (rest.getD 2 0 + 256 * rest.getD 3 0))
          let rest2 := rest.drop 4
          if n = 0 then consRes ⟨.pushdata4, []⟩ (parseLoop rest2)
          else if rest2.length < n then .fail
          else consRes ⟨.pushdata4, rest2.take n⟩ (parseLoop (rest2.drop n))
      else consRes ⟨Opcode.fromByte b, []⟩ (parseLoop rest)
termination_by l => l.length
decreasing_by
  all_goals simp_wf
  all_goals omega

/-- `parse_script`: the full walk; `none` marks the out-of-bounds
dereference (undefined behavior), `some []` is the source's empty-script
return (used both for an empty input and for the detected premature-end
failure). -/
def parse_script (raw_script : List Nat) : Option (List Operation) :=
  match parseLoop raw_script with
  | .ub => none
  | .fail => some []
  | .ok ops => some ops

/-- `operation_metadata`: the little-endian length field emitted before a
`PUSHDATA1/2/4` payload (fixed width 1, 2 or 4; other opcodes have
none).  Modelled from the spec: `uncast_type` of `bitcoin/format.hpp` is
not under `src/`; the spec fixes the little-endian layout. -/
def operation_metadata (code : Opcode) (data_size : Nat) : List Nat :=
  match code with
  | .pushdata1 => [data_size % 256]
  | .pushdata2 => [data_size % 256, data_size / 256 % 256]
  | .pushdata4 => [data_size % 256, data_size / 256 % 256,
                   data_size / 65536 % 256, data_size / 16777216 % 256]
  | _ => []

/-- The byte sequence one operation contributes to `save_script`: the
opcode byte (for `SPECIAL`, the payload length), the length metadata, and
the payload. -/
def save_op (op : Operation) : List Nat :=
  (if op.code = Opcode.special then [op.data.length] else [op.code.toByte])
    ++ operation_metadata op.code op.data.length ++ op.data

/-- `save_script`: an empty script emits nothing; a script whose first
operation is the `RAW_DATA` carrier emits that payload verbatim;
otherwise the per-operation encodings are concatenated. -/
def save_script (ops : List Operation) : List Nat :=
  match ops with
  | [] => []
  | op0 :: _ =>
      if op0.code = Opcode.raw_data then op0.data
      else (ops.map save_op).flatten

/-! ## Concrete fixtures -/

/-- Concrete primitives for witnesses: hashes return empty strings and
the public-key load always fails. -/
def prim0 : Prim where
  sha256h := fun _ => []
  hash160h := fun _ => []
  setPublicKeyOk := fun _ => false
  ecdsaVerify := fun _ _ _ => false
  hashTransaction := fun _ _ => []

/-- An empty concrete transaction for witnesses. -/
def tx0 : Tx := ⟨0, [], [], 0⟩

/-- A concrete two-input, one-output transaction for witnesses. -/
def txA : Tx := ⟨1, [⟨0, [], 5⟩, ⟨1, [], 7⟩], [⟨50, []⟩], 0⟩

/-! ## C6: the boolean cast -/

/-- The boolean cast is true exactly when some byte is non-zero and the
item is not a negative zero (last byte `0x80`, all earlier bytes zero). -/
theorem cast_to_bool_iff (b : List Nat) :
    cast_to_bool b = true ↔
      ((∃ x ∈ b, x ≠ 0) ∧ ¬(b.getLast? = some 128 ∧ ∀ x ∈ b.dropLast, x = 0)) := by
  induction b with
  | nil => simp [cast_to_bool]
  | cons x xs ih =>
    cases xs with
    | nil =>
      by_cases hx : x = 0
      · subst hx; simp [cast_to_bool]
      · by_cases h8 : x = 128
        · subst h8; simp [cast_to_bool]
        · simp [cast_to_bool, hx, h8]
    | cons y ys =>
      by_cases hx : x = 0
      · subst hx
        have hc : cast_to_bool (0 :: y :: ys) = cast_to_bool (y :: ys) := by
          simp [cast_to_bool]
        rw [hc, ih]
        constructor
        · rintro ⟨⟨z, hz1, hz2⟩, h2⟩
          refine ⟨⟨z, List.mem_cons_of_mem _ hz1, hz2⟩, ?_⟩
          rintro ⟨hl, hall⟩
          rw [List.getLast?_cons_cons] at hl
          refine h2 ⟨hl, fun w hw => ?_⟩
          exact hall w (by rw [List.dropLast_cons₂]; exact List.mem_cons_of_mem _ hw)
        · rintro ⟨⟨z, hz1, hz2⟩, h2⟩
          have hz1' : z ∈ y :: ys := by
            rcases List.mem_cons.1 hz1 with h | h
            · exact absurd h.symm (Ne.symm hz2)
            · exact h
          refine ⟨⟨z, hz1', hz2⟩, ?_⟩
          rintro ⟨hl, hall⟩
          refine h2 ⟨by rw [List.getLast?_cons_cons]; exact hl, fun w hw => ?_⟩
          rw [List.dropLast_cons₂] at hw
          rcases List.mem_cons.1 hw with h | h
          · exact h
          · exact hall w h
      · simp only [cast_to_bool, List.getLast?_cons_cons]
        simp [hx, List.dropLast_cons₂]

/-- C6: for every byte string `b`, `cast_to_bool b` is true iff `b` has a
non-zero byte, except that a negative zero (last byte `0x80`, all other
bytes zero) is false; in particular `[0x80]`, `[0x00, 0x80]` and `[]`
cast to false and `[0x01]` casts to true. -/
theorem cast_to_bool_correct :
    (∀ b : List Nat, cast_to_bool b = true ↔
      ((∃ x ∈ b, x ≠ 0) ∧ ¬(b.getLast? = some 128 ∧ ∀ x ∈ b.dropLast, x = 0)))
    ∧ cast_to_bool [128] = false
    ∧ cast_to_bool [0, 128] = false
    ∧ cast_to_bool [1] = true
    ∧ cast_to_bool [] = false :=
  ⟨cast_to_bool_iff, by decide, by decide, by decide, by decide⟩

/-! ## C7: the conditional stack is closed on success -/

/-- C7: a per-script `run` that returns success ends with an empty
conditional stack, and an execution that reaches the end of the
operations with a pending `IF` frame returns failure. -/
theorem run_conditional_closed (prim : Prim) (tx : Tx) (i : Nat)
    (ops : List Operation) (stack : List (List Nat)) :
    (∀ st, run prim tx i ops stack = some (true, st) → st.condStack = [])
    ∧ (∀ st, runLoop prim tx i ops ops 0 ⟨stack, [], [], 0⟩ = some (true, st) →
        st.condStack ≠ [] → run prim tx i ops stack = some (false, st)) := by
  constructor
  · intro st h
    unfold run at h
    rcases hrl : runLoop prim tx i ops ops 0 ⟨stack, [], [], 0⟩ with _ | ⟨b, st1⟩
    · rw [hrl] at h; exact absurd h (by simp)
    · rw [hrl] at h
      cases b with
      | false => simp at h
      | true =>
          by_cases hc : st1.condStack = []
          · simp only [hc, if_true, reduceIte] at h
            simp at h
            subst h
            exact hc
          · simp [hc] at h
  · intro st h hne
    unfold run
    rw [h]
    simp [hne]

/-- Witness for C7 at the empty script: the run succeeds and the final
conditional stack is empty. -/
theorem run_conditional_closed_w :
    run prim0 tx0 0 [] [] = some (true, ⟨[], [], [], 0⟩)
    ∧ (⟨[], [], [], 0⟩ : RunState).condStack = [] :=
  ⟨rfl, (run_conditional_closed prim0 tx0 0 [] []).1 ⟨[], [], [], 0⟩ rfl⟩

/-! ## C2: CODESEPARATOR inside a non-executing branch -/

/-- C2 counterexample: with a failed branch on the conditional stack,
`next_step` on a `CODESEPARATOR` at position 2 leaves `codehash_begin`
unchanged at 0 instead of updating it to the current position. -/
theorem codeseparator_dead_branch_counterexample :
    next_step prim0 tx0 0 [] 2 ⟨[], [], [false], 0⟩ ⟨Opcode.codeseparator, []⟩
      = some (true, ⟨[], [], [false], 0⟩)
    ∧ (⟨[], [], [false], 0⟩ : RunState).codehashBegin ≠ 2 := by
  exact ⟨rfl, by decide⟩

/-- C2 (amended): `CODESEPARATOR` updates `codehash_begin` to the current
position only when the conditional stack has no failed branch; inside a
non-executing branch it is skipped like any other non-condition opcode
and `codehash_begin` is unchanged. -/
theorem next_step_codeseparator (prim : Prim) (tx : Tx) (i : Nat)
    (ops : List Operation) (pos : Nat) (st : RunState) (d : List Nat) :
    (st.condStack.contains false = true →
      next_step prim tx i ops pos st ⟨Opcode.codeseparator, d⟩ = some (true, st))
    ∧ (st.condStack.contains false = false →
      next_step prim tx i ops pos st ⟨Opcode.codeseparator, d⟩
        = some (true, { st with codehashBegin := pos })) := by
  constructor
  · intro h
    simp only [next_step, opcode_is_disabled, is_condition_opcode, h]
    simp
  · intro h
    simp only [next_step, opcode_is_disabled, is_condition_opcode, h]
    simp

/-- Witness for the amended C2: one skipped and one executed
`CODESEPARATOR` at position 5. -/
theorem next_step_codeseparator_w :
    next_step prim0 tx0 0 [] 5 ⟨[], [], [false], 0⟩ ⟨Opcode.codeseparator, []⟩
      = some (true, ⟨[], [], [false], 0⟩)
    ∧ next_step prim0 tx0 0 [] 5 ⟨[], [], [], 0⟩ ⟨Opcode.codeseparator, []⟩
      = some (true, ⟨[], [], [], 5⟩) :=
  ⟨(next_step_codeseparator prim0 tx0 0 [] 5 ⟨[], [], [false], 0⟩ []).1 rfl,
   (next_step_codeseparator prim0 tx0 0 [] 5 ⟨[], [], [], 0⟩ []).2 rfl⟩

/-! ## C10: CHECKMULTISIG with an empty pubkey section -/

/-- C10: with a pubkey count of 0 and a signature count of 1, the
matching loop dereferences past the end of the empty pubkey list before
any exhaustion check (`matchSigs _ _ [] = none`), and the branch is
reachable from the public interface: a script that pushes a signature, a
signature count of 1 and a pubkey count of 0 and then executes
`CHECKMULTISIGVERIFY` drives the whole run into the out-of-bounds
state. -/
theorem checkmultisig_empty_pubkeys_oob :
    matchSigs (fun _ _ => some false) [[7]] [] = none
    ∧ run prim0 tx0 0
        [⟨Opcode.special, [7]⟩, ⟨Opcode.special, [1]⟩, ⟨Opcode.zero, []⟩,
         ⟨Opcode.checkmultisigverify, []⟩] [] = none :=
  ⟨rfl, rfl⟩

/-! ## C8: premature end of script -/

set_option maxHeartbeats 1000000 in
/-- C8: a script that ends inside a push *payload* is the detected
premature-end failure and parses to the empty script (`[0x02, 0x05]`),
but a script that ends inside a `PUSHDATA` *length prefix* reaches the
unchecked iterator advance of `read_back_from_iterator` and dereferences
past the end of the input (`[0x4d, 0x01]`, modelled as `none`). -/
theorem parse_truncated_length_prefix_oob :
    parse_script [77, 1] = none ∧ parse_script [2, 5] = some [] := by
  constructor
  · have h : parseLoop [77, 1] = .ub := by
      rw [parseLoop.eq_def]; norm_num
    simp [parse_script, h]
  · have h : parseLoop [2, 5] = .fail := by
      rw [parseLoop.eq_def]; norm_num
    simp [parse_script, h]

/-! ## C1 and C9: zero-digest sighash paths -/

/-- Nullifying sequences does not change the number of inputs. -/
theorem length_nullify (inputs : List TxIn) (ei : Nat) :
    (nullify_input_sequences inputs ei).length = inputs.length := by
  simp [nullify_input_sequences]

/-- The mode rewrite does not change the number of inputs. -/
theorem length_mode_rewrite (tx : Tx) (i m : Nat) :
    (sighash_mode_rewrite tx i m).inputs.length = tx.inputs.length := by
  unfold sighash_mode_rewrite
  split
  · exact length_nullify _ _
  · split
    · exact length_nullify _ _
    · rfl

/-- C1: when the low five bits of `hash_type` select `SINGLE` and the
input index is at or past the number of outputs,
`generate_signature_hash` returns the all-zero digest (not an error),
and any `check_signature` whose signature carries such a `hash_type`
byte fails. -/
theorem sighash_single_out_of_range (prim : Prim) (tx : Tx) (i : Nat)
    (sc : List Operation) (ht : Nat)
    (hmode : ht &&& 31 = 3) (hout : tx.outputs.length ≤ i) :
    generate_signature_hash prim tx i sc ht = some nullHash
    ∧ (∀ sig pk ht2, sig.getLast? = some ht2 → ht2 &&& 31 = 3 →
        check_signature prim sig pk sc tx i = some false) := by
  have hgen : ∀ ht', ht' &&& 31 = 3 →
      generate_signature_hash prim tx i sc ht' = some nullHash := by
    intro ht' h
    unfold generate_signature_hash
    dsimp only
    rw [if_pos ⟨by simp [sighash_single, h], hout⟩]
  refine ⟨hgen ht hmode, ?_⟩
  intro sig pk ht2 hlast hm2
  unfold check_signature
  by_cases hpk : prim.setPublicKeyOk pk = false
  · rw [if_pos hpk]
  · rw [if_neg hpk, hlast]
    dsimp only
    rw [hgen ht2 hm2]
    simp

/-- Witness for C1: an empty-output transaction at index 0 with
`hash_type = 3` yields the zero digest, and a signature ending in the
byte 3 fails `check_signature`. -/
theorem sighash_single_out_of_range_w :
    generate_signature_hash prim0 tx0 0 [] 3 = some nullHash
    ∧ check_signature prim0 [3] [] [] tx0 0 = some false :=
  ⟨(sighash_single_out_of_range prim0 tx0 0 [] 3 (by decide) (by decide)).1,
   (sighash_single_out_of_range prim0 tx0 0 [] 3 (by decide) (by decide)).2
     [3] [] 3 rfl (by decide)⟩

/-- C9: with the `ANYONE_CAN_PAY` bit set and a (valid) input index of at
least 1, the inputs are truncated to one element before the defensive
range check, so `generate_signature_hash` returns the all-zero digest and
every `check_signature` whose signature carries such a `hash_type` byte
fails. -/
theorem sighash_anyone_can_pay_truncation (prim : Prim) (tx : Tx) (i : Nat)
    (sc : List Operation) (ht : Nat)
    (h1 : 1 ≤ i) (h2 : i < tx.inputs.length) (hacp : ht &&& 128 ≠ 0) :
    generate_signature_hash prim tx i sc ht = some nullHash
    ∧ (∀ sig pk ht2, sig.getLast? = some ht2 → ht2 &&& 128 ≠ 0 →
        check_signature prim sig pk sc tx i = some false) := by
  have hgen : ∀ ht', ht' &&& 128 ≠ 0 →
      generate_signature_hash prim tx i sc ht' = some nullHash := by
    intro ht' h
    unfold generate_signature_hash
    dsimp only
    split
    · rfl
    · rw [if_pos (show ht' &&& sighash_anyone_can_pay ≠ 0 from by
        simpa [sighash_anyone_can_pay] using h)]
      have hlt : i < (sighash_mode_rewrite tx i (ht' &&& 31)).inputs.length := by
        rw [length_mode_rewrite]; exact h2
      have hinp : (sighash_mode_rewrite tx i (ht' &&& 31)).inputs[i]? =
          some ((sighash_mode_rewrite tx i (ht' &&& 31)).inputs.get ⟨i, hlt⟩) := by
        rw [List.getElem?_eq_getElem hlt]
        rfl
      unfold sighash_acp_rewrite
      rw [hinp]
      simp [sighash_finish, Nat.le_of_lt_succ, h1]
  refine ⟨hgen ht hacp, ?_⟩
  intro sig pk ht2 hlast hm2
  unfold check_signature
  by_cases hpk : prim.setPublicKeyOk pk = false
  · rw [if_pos hpk]
  · rw [if_neg hpk, hlast]
    dsimp only
    rw [hgen ht2 hm2]
    simp

/-- Witness for C9: the two-input transaction `txA` at input 1 with
`hash_type = 0x81` (ALL | ANYONE_CAN_PAY). -/
theorem sighash_anyone_can_pay_truncation_w :
    generate_signature_hash prim0 txA 1 [] 129 = some nullHash
    ∧ check_signature prim0 [129] [] [] txA 1 = some false :=
  ⟨(sighash_anyone_can_pay_truncation prim0 txA 1 [] 129
      (by decide) (by decide) (by decide)).1,
   (sighash_anyone_can_pay_truncation prim0 txA 1 [] 129
      (by decide) (by decide) (by decide)).2 [129] [] 129 rfl (by decide)⟩

/-! ## C3: no push-size or stack-depth bound -/

/-- The empty byte string parses to the empty operation stream. -/
theorem parseLoop_nil : parseLoop [] = .ok [] := by
  rw [parseLoop.eq_def]

/-- A `PUSHDATA2` whose announced payload is fully present parses to a
single push operation carrying the whole payload, whatever its size. -/
theorem parseLoop_pushdata2 (n0 n1 : Nat) (payload : List Nat)
    (hlen : payload.length = n0 + 256 * n1) (hpos : 0 < payload.length) :
    parseLoop (77 :: n0 :: n1 :: payload) = .ok [⟨.pushdata2, payload⟩] := by
  rw [parseLoop.eq_def]
  norm_num
  rw [← hlen]
  simp [hpos.ne', parseLoop_nil, consRes]
  rw [if_neg (show ¬(payload.length + 1 + 1 < 2) from by omega),
      if_neg (show ¬(n0 = 0 ∧ n1 = 0) from by omega)]

/-- Executing a block of `ZERO` pushes from a closed conditional stack
succeeds and pushes that many empty items. -/
theorem runLoop_zeros (prim : Prim) (tx : Tx) (i : Nat) (ops : List Operation)
    (n : Nat) :
    ∀ (pos : Nat) (st : RunState), st.condStack = [] →
      runLoop prim tx i ops (List.replicate n ⟨Opcode.zero, []⟩) pos st
        = some (true, { st with stack := List.replicate n [] ++ st.stack }) := by
  induction n with
  | zero => intro pos st _; simp [runLoop]
  | succ n ih =>
      intro pos st hc
      rw [List.replicate_succ]
      have hns : next_step prim tx i ops pos st ⟨Opcode.zero, []⟩
          = some (true, stackPush [] st) := by
        simp [next_step, opcode_is_disabled, hc]
      simp only [runLoop, hns]
      rw [ih (pos + 1) (stackPush [] st) (by simp [stackPush, hc])]
      simp [stackPush, List.replicate_succ']

/-- C3 counterexample: a 521-byte push is *not* rejected at parse time
(the parse succeeds and is not the empty-script failure), and a script of
1001 pushes executes successfully with a stack depth of 1001 (no
1000-item bound). -/
theorem push_521_and_stack_1001_counterexample :
    parse_script (77 :: 9 :: 2 :: List.replicate 521 7)
        = some [⟨Opcode.pushdata2, List.replicate 521 7⟩]
    ∧ parse_script (77 :: 9 :: 2 :: List.replicate 521 7) ≠ some []
    ∧ (∃ st, run prim0 tx0 0 (List.replicate 1001 ⟨Opcode.zero, []⟩) []
        = some (true, st) ∧ st.stack.length = 1001) := by
  have hp : parse_script (77 :: 9 :: 2 :: List.replicate 521 7)
      = some [⟨Opcode.pushdata2, List.replicate 521 7⟩] := by
    unfold parse_script
    rw [parseLoop_pushdata2 9 2 _ (by rw [List.length_replicate]) (by rw [List.length_replicate]; norm_num)]
  refine ⟨hp, by rw [hp]; intro h; injection h with h1; exact List.cons_ne_nil _ _ h1, ?_⟩
  refine ⟨⟨List.replicate 1001 [], [], [], 0⟩, ?_,
    show (List.replicate 1001 ([] : List Nat)).length = 1001 from by
      rw [List.length_replicate]⟩
  unfold run
  rw [runLoop_zeros prim0 tx0 0 _ 1001 0 ⟨[], [], [], 0⟩ rfl]
  simp only [List.append_nil]
  rw [if_pos trivial]

/-- C3 (amended): neither bound exists in the source.  `parse_script`
performs no maximum-push-size check: any `PUSHDATA2` whose announced
payload bytes are all present is accepted whole, whatever its size (in
particular 521 bytes).  Execution enforces no stack-depth bound: a script
of `n` pushes runs successfully and leaves a stack of depth `n` for every
`n` (in particular 1001 > 1000). -/
theorem no_push_size_or_stack_depth_limit (n0 n1 : Nat) (payload : List Nat)
    (hlen : payload.length = n0 + 256 * n1) (hpos : 0 < payload.length) :
    parse_script (77 :: n0 :: n1 :: payload)
        = some [⟨Opcode.pushdata2, payload⟩]
    ∧ (∀ prim tx i n, run prim tx i (List.replicate n ⟨Opcode.zero, []⟩) []
        = some (true, ⟨List.replicate n [], [], [], 0⟩)) := by
  constructor
  · unfold parse_script
    rw [parseLoop_pushdata2 n0 n1 payload hlen hpos]
  · intro prim tx i n
    unfold run
    rw [runLoop_zeros prim tx i _ n 0 ⟨[], [], [], 0⟩ rfl]
    simp

/-- Witness for the amended C3 at the concrete sizes 521 and 1001. -/
theorem no_push_size_or_stack_depth_limit_w :
    parse_script (77 :: 9 :: 2 :: List.replicate 521 7)
        = some [⟨Opcode.pushdata2, List.replicate 521 7⟩]
    ∧ run prim0 tx0 0 (List.replicate 1001 ⟨Opcode.zero, []⟩) []
        = some (true, ⟨List.replicate 1001 [], [], [], 0⟩) :=
  ⟨(no_push_size_or_stack_depth_limit 9 2 (List.replicate 521 7)
      (by rw [List.length_replicate]) (by rw [List.length_replicate]; norm_num)).1,
   (no_push_size_or_stack_depth_limit 9 2 (List.replicate 521 7)
      (by rw [List.length_replicate]) (by rw [List.length_replicate]; norm_num)).2 prim0 tx0 0 1001⟩

/-! ## C4: serializer round-trip -/

/-- A successful `consRes` unpacks into a successful continuation. -/
theorem consRes_ok {op : Operation} {r : PResult} {ops : List Operation}
    (h : consRes op r = .ok ops) : ∃ tail, r = .ok tail ∧ ops = op :: tail := by
  cases r with
  | ub => exact absurd h (by simp [consRes])
  | fail => exact absurd h (by simp [consRes])
  | ok tail =>
      refine ⟨tail, rfl, ?_⟩
      have h' := h
      simp [consRes] at h'
      exact h'.symm

/-- A non-empty list is its head (`getD 0`) followed by its tail. -/
theorem getD_one_cons_drop {l : List Nat} (h : l ≠ []) :
    l.getD 0 0 :: l.drop 1 = l := by
  cases l with
  | nil => exact absurd rfl h
  | cons a t => rfl

/-- A list of length at least two starts with its first two `getD`
entries. -/
theorem getD_two_cons_drop {l : List Nat} (h : 2 ≤ l.length) :
    l.getD 0 0 :: l.getD 1 0 :: l.drop 2 = l := by
  cases l with
  | nil => simp at h
  | cons a t =>
      cases t with
      | nil => simp at h
      | cons a2 t2 => rfl

/-- A list of length at least four starts with its first four `getD`
entries. -/
theorem getD_four_cons_drop {l : List Nat} (h : 4 ≤ l.length) :
    l.getD 0 0 :: l.getD 1 0 :: l.getD 2 0 :: l.getD 3 0 :: l.drop 4 = l := by
  cases l with
  | nil => simp at h
  | cons a t => cases t with
    | nil => simp at h
    | cons a2 t2 => cases t2 with
      | nil => simp at h
      | cons a3 t3 => cases t3 with
        | nil => simp at h
        | cons a4 t4 => rfl

/-- The first element of a non-empty list is a member. -/
theorem getD_zero_mem {l : List Nat} (h : l ≠ []) : l.getD 0 0 ∈ l := by
  cases l with
  | nil => exact absurd rfl h
  | cons a t => exact List.mem_cons_self _ _

/-- The second element of a list of length at least two is a member. -/
theorem getD_one_mem {l : List Nat} (h : 2 ≤ l.length) : l.getD 1 0 ∈ l := by
  cases l with
  | nil => simp at h
  | cons a t =>
      cases t with
      | nil => simp at h
      | cons a2 t2 => exact List.mem_cons_of_mem _ (List.mem_cons_self _ _)

/-- `Opcode.fromByte` never produces a push opcode, so it contributes no
length metadata. -/
theorem metadata_fromByte (b d : Nat) :
    operation_metadata (Opcode.fromByte b) d = [] := by
  unfold Opcode.fromByte
  split <;> rfl

/-- Any in-range `getD` entry is a member of the list. -/
theorem getD_mem_of_lt {l : List Nat} {k : Nat} (h : k < l.length) :
    l.getD k 0 ∈ l := by
  rw [List.getD_eq_getElem?_getD, List.getElem?_eq_getElem h]
  exact List.getElem_mem h

/-- Every operation stream the parser accepts re-serializes to exactly
the bytes it came from, and never contains the synthetic `RAW_DATA`
marker. -/
theorem parseLoop_save : ∀ (b : List Nat), (∀ x ∈ b, x < 256) →
    ∀ ops, parseLoop b = .ok ops →
      ((ops.map save_op).flatten = b ∧ ∀ op ∈ ops, op.code ≠ Opcode.raw_data) := by
  intro b
  induction b using parseLoop.induct with
  | case1 =>
      intro _ ops hok
      rw [parseLoop_nil] at hok
      injection hok with h
      subst h
      simp
  | case2 rest ih =>
      intro hb ops hok
      rw [parseLoop.eq_def] at hok
      simp only [if_pos (show (0 : Nat) = 0 from rfl)] at hok
      obtain ⟨tail, hrec, rfl⟩ := consRes_ok hok
      obtain ⟨hflat, hraw⟩ := ih (fun x hx => hb x (List.mem_cons_of_mem _ hx)) tail hrec
      refine ⟨?_, ?_⟩
      · show save_op ⟨.zero, []⟩ ++ (tail.map save_op).flatten = 0 :: rest
        rw [hflat]
        rfl
      · intro op hop
        rcases List.mem_cons.1 hop with h | h
        · subst h; simp
        · exact hraw op h
  | case3 b rest h1 h2 h3 =>
      intro _ ops hok
      rw [parseLoop.eq_def] at hok
      simp [h1, h2, h3] at hok
  | case4 b rest h1 h2 h3 ih =>
      intro hb ops hok
      rw [parseLoop.eq_def] at hok
      simp only [if_neg h1, if_pos h2, if_neg h3] at hok
      obtain ⟨tail, hrec, rfl⟩ := consRes_ok hok
      obtain ⟨hflat, hraw⟩ := ih
        (fun x hx => hb x (List.mem_cons_of_mem _ (List.mem_of_mem_drop hx))) tail hrec
      have hlen : (rest.take b).length = b := by
        rw [List.length_take]; omega
      refine ⟨?_, ?_⟩
      · show save_op ⟨.special, rest.take b⟩ ++ (tail.map save_op).flatten = b :: rest
        rw [hflat]
        show (rest.take b).length :: (rest.take b ++ rest.drop b) = b :: rest
        rw [hlen, List.take_append_drop]
      · intro op hop
        rcases List.mem_cons.1 hop with h | h
        · subst h; simp
        · exact hraw op h
  | case5 rest hlen h1 h2 =>
      intro _ ops hok
      rw [parseLoop.eq_def] at hok
      simp [hlen] at hok
  | case6 rest hlen n rest2 hn0 h1 h2 ih =>
      intro hb ops hok
      have hn0' : rest.getD 0 0 = 0 := hn0
      rw [parseLoop.eq_def] at hok
      simp only [if_neg h1, if_neg h2, if_pos (show (76 : Nat) = 76 from rfl),
        if_neg hlen, if_pos hn0'] at hok
      obtain ⟨tail, hrec, rfl⟩ := consRes_ok hok
      obtain ⟨hflat, hraw⟩ := ih
        (fun x hx => hb x (List.mem_cons_of_mem _ (List.mem_of_mem_drop hx))) tail hrec
      have hne : rest ≠ [] := by
        intro hh; rw [hh] at hlen; simp at hlen
      refine ⟨?_, ?_⟩
      · show save_op ⟨.pushdata1, []⟩ ++ (tail.map save_op).flatten = 76 :: rest
        rw [hflat]
        show 76 :: 0 :: rest.drop 1 = 76 :: rest
        rw [← hn0', getD_one_cons_drop hne]
      · intro op hop
        rcases List.mem_cons.1 hop with h | h
        · subst h; simp
        · exact hraw op h
  | case7 rest hlen n rest2 hn0 hfail h1 h2 =>
      intro _ ops hok
      have hn0' : ¬rest.getD 0 0 = 0 := hn0
      have hfail' : (rest.drop 1).length < rest.getD 0 0 := hfail
      rw [parseLoop.eq_def] at hok
      simp only [if_neg h1, if_neg h2, if_pos (show (76 : Nat) = 76 from rfl),
        if_neg hlen, if_neg hn0', if_pos hfail'] at hok
      simp at hok
  | case8 rest hlen n rest2 hn0 hfit h1 h2 ih =>
      intro hb ops hok
      have hn0' : ¬rest.getD 0 0 = 0 := hn0
      have hfit' : ¬(rest.drop 1).length < rest.getD 0 0 := hfit
      rw [parseLoop.eq_def] at hok
      simp only [if_neg h1, if_neg h2, if_pos (show (76 : Nat) = 76 from rfl),
        if_neg hlen, if_neg hn0', if_neg hfit'] at hok
      obtain ⟨tail, hrec, rfl⟩ := consRes_ok hok
      obtain ⟨hflat, hraw⟩ := ih
        (fun x hx => hb x (List.mem_cons_of_mem _
          (List.mem_of_mem_drop (List.mem_of_mem_drop hx)))) tail hrec
      have hne : rest ≠ [] := by
        intro hh; rw [hh] at hlen; simp at hlen
      have hb0 : rest.getD 0 0 < 256 :=
        hb _ (List.mem_cons_of_mem _ (getD_zero_mem hne))
      have hlen2 : ((rest.drop 1).take (rest.getD 0 0)).length = rest.getD 0 0 := by
        rw [List.length_take]; omega
      refine ⟨?_, ?_⟩
      · show save_op ⟨.pushdata1, (rest.drop 1).take (rest.getD 0 0)⟩
            ++ (tail.map save_op).flatten = 76 :: rest
        rw [hflat]
        show 76 :: ((rest.drop 1).take (rest.getD 0 0)).length % 256
            :: ((rest.drop 1).take (rest.getD 0 0) ++ (rest.drop 1).drop (rest.getD 0 0))
            = 76 :: rest
        rw [hlen2, List.take_append_drop, Nat.mod_eq_of_lt hb0, getD_one_cons_drop hne]
      · intro op hop
        rcases List.mem_cons.1 hop with h | h
        · subst h; simp
        · exact hraw op h
  | case9 rest hlen h1 h2 h3 =>
      intro _ ops hok
      rw [parseLoop.eq_def] at hok
      simp [hlen] at hok
  | case10 rest hlen n rest2 hn0 h1 h2 h3 ih =>
      intro hb ops hok
      have hn0' : rest.getD 0 0 + 256 * rest.getD 1 0 = 0 := hn0
      rw [parseLoop.eq_def] at hok
      simp only [if_neg h1, if_neg h2, if_neg h3,
        if_pos (show (77 : Nat) = 77 from rfl), if_neg hlen, if_pos hn0'] at hok
      obtain ⟨tail, hrec, rfl⟩ := consRes_ok hok
      obtain ⟨hflat, hraw⟩ := ih
        (fun x hx => hb x (List.mem_cons_of_mem _ (List.mem_of_mem_drop hx))) tail hrec
      have hge : 2 ≤ rest.length := by omega
      have hr0 : rest.getD 0 0 = 0 := by omega
      have hr1 : rest.getD 1 0 = 0 := by omega
      refine ⟨?_, ?_⟩
      · show save_op ⟨.pushdata2, []⟩ ++ (tail.map save_op).flatten = 77 :: rest
        rw [hflat]
        show 77 :: 0 :: 0 :: rest.drop 2 = 77 :: rest
        have h2cd := getD_two_cons_drop hge
        rw [hr0, hr1] at h2cd
        rw [h2cd]
      · intro op hop
        rcases List.mem_cons.1 hop with h | h
        · subst h; simp
        · exact hraw op h
  | case11 rest hlen n rest2 hn0 hfail h1 h2 h3 =>
      intro _ ops hok
      have hn0' : ¬rest.getD 0 0 + 256 * rest.getD 1 0 = 0 := hn0
      have hfail' : (rest.drop 2).length < rest.getD 0 0 + 256 * rest.getD 1 0 := hfail
      rw [parseLoop.eq_def] at hok
      simp only [if_neg h1, if_neg h2, if_neg h3,
        if_pos (show (77 : Nat) = 77 from rfl), if_neg hlen, if_neg hn0', if_pos hfail'] at hok
      simp at hok
  | case12 rest hlen n rest2 hn0 hfit h1 h2 h3 ih =>
      intro hb ops hok
      have hn0' : ¬rest.getD 0 0 + 256 * rest.getD 1 0 = 0 := hn0
      have hfit' : ¬(rest.drop 2).length < rest.getD 0 0 + 256 * rest.getD 1 0 := hfit
      rw [parseLoop.eq_def] at hok
      simp only [if_neg h1, if_neg h2, if_neg h3,
        if_pos (show (77 : Nat) = 77 from rfl), if_neg hlen, if_neg hn0', if_neg hfit'] at hok
      obtain ⟨tail, hrec, rfl⟩ := consRes_ok hok
      obtain ⟨hflat, hraw⟩ := ih
        (fun x hx => hb x (List.mem_cons_of_mem _
          (List.mem_of_mem_drop (List.mem_of_mem_drop hx)))) tail hrec
      have hge : 2 ≤ rest.length := by omega
      have hb0 : rest.getD 0 0 < 256 :=
        hb _ (List.mem_cons_of_mem _ (getD_mem_of_lt (by omega)))
      have hb1 : rest.getD 1 0 < 256 :=
        hb _ (List.mem_cons_of_mem _ (getD_mem_of_lt (by omega)))
      have hlen2 : ((rest.drop 2).take (rest.getD 0 0 + 256 * rest.getD 1 0)).length
          = rest.getD 0 0 + 256 * rest.getD 1 0 := by
        rw [List.length_take]; omega
      have hd0 : (rest.getD 0 0 + 256 * rest.getD 1 0) % 256 = rest.getD 0 0 := by omega
      have hd1 : (rest.getD 0 0 + 256 * rest.getD 1 0) / 256 % 256 = rest.getD 1 0 := by
        omega
      refine ⟨?_, ?_⟩
      · show save_op ⟨.pushdata2,
            (rest.drop 2).take (rest.getD 0 0 + 256 * rest.getD 1 0)⟩
            ++ (tail.map save_op).flatten = 77 :: rest
        rw [hflat]
        show 77
            :: ((rest.drop 2).take (rest.getD 0 0 + 256 * rest.getD 1 0)).length % 256
            :: ((rest.drop 2).take (rest.getD 0 0 + 256 * rest.getD 1 0)).length / 256 % 256
            :: ((rest.drop 2).take (rest.getD 0 0 + 256 * rest.getD 1 0)
                ++ (rest.drop 2).drop (rest.getD 0 0 + 256 * rest.getD 1 0))
            = 77 :: rest
        rw [hlen2, List.take_append_drop, hd0, hd1, getD_two_cons_drop hge]
      · intro op hop
        rcases List.mem_cons.1 hop with h | h
        · subst h; simp
        · exact hraw op h
  | case13 rest hlen h1 h2 h3 h4 =>
      intro _ ops hok
      rw [parseLoop.eq_def] at hok
      simp [hlen] at hok
  | case14 rest hlen n rest2 hn0 h1 h2 h3 h4 ih =>
      intro hb ops hok
      have hn0' : rest.getD 0 0 + 256 * (rest.getD 1 0
          + 256 * (rest.getD 2 0 + 256 * rest.getD 3 0)) = 0 := hn0
      rw [parseLoop.eq_def] at hok
      simp only [if_neg h1, if_neg h2, if_neg h3, if_neg h4,
        if_pos (show (78 : Nat) = 78 from rfl), if_neg hlen, if_pos hn0'] at hok
      obtain ⟨tail, hrec, rfl⟩ := consRes_ok hok
      obtain ⟨hflat, hraw⟩ := ih
        (fun x hx => hb x (List.mem_cons_of_mem _ (List.mem_of_mem_drop hx))) tail hrec
      have hge : 4 ≤ rest.length := by omega
      have hr0 : rest.getD 0 0 = 0 := by omega
      have hr1 : rest.getD 1 0 = 0 := by omega
      have hr2 : rest.getD 2 0 = 0 := by omega
      have hr3 : rest.getD 3 0 = 0 := by omega
      refine ⟨?_, ?_⟩
      · show save_op ⟨.pushdata4, []⟩ ++ (tail.map save_op).flatten = 78 :: rest
        rw [hflat]
        show 78 :: 0 :: 0 :: 0 :: 0 :: rest.drop 4 = 78 :: rest
        have h4cd := getD_four_cons_drop hge
        rw [hr0, hr1, hr2, hr3] at h4cd
        rw [h4cd]
      · intro op hop
        rcases List.mem_cons.1 hop with h | h
        · subst h; simp
        · exact hraw op h
  | case15 rest hlen n rest2 hn0 hfail h1 h2 h3 h4 =>
      intro _ ops hok
      have hn0' : ¬rest.getD 0 0 + 256 * (rest.getD 1 0
          + 256 * (rest.getD 2 0 + 256 * rest.getD 3 0)) = 0 := hn0
      have hfail' : (rest.drop 4).length < rest.getD 0 0 + 256 * (rest.getD 1 0
          + 256 * (rest.getD 2 0 + 256 * rest.getD 3 0)) := hfail
      rw [parseLoop.eq_def] at hok
      simp only [if_neg h1, if_neg h2, if_neg h3, if_neg h4,
        if_pos (show (78 : Nat) = 78 from rfl), if_neg hlen, if_neg hn0', if_pos hfail'] at hok
      simp at hok
  | case16 rest hlen n rest2 hn0 hfit h1 h2 h3 h4 ih =>
      intro hb ops hok
      have hn0' : ¬rest.getD 0 0 + 256 * (rest.getD 1 0
          + 256 * (rest.getD 2 0 + 256 * rest.getD 3 0)) = 0 := hn0
      have hfit' : ¬(rest.drop 4).length < rest.getD 0 0 + 256 * (rest.getD 1 0
          + 256 * (rest.getD 2 0 + 256 * rest.getD 3 0)) := hfit
      rw [parseLoop.eq_def] at hok
      simp only [if_neg h1, if_neg h2, if_neg h3, if_neg h4,
        if_pos (show (78 : Nat) = 78 from rfl), if_neg hlen, if_neg hn0', if_neg hfit'] at hok
      obtain ⟨tail, hrec, rfl⟩ := consRes_ok hok
      obtain ⟨hflat, hraw⟩ := ih
        (fun x hx => hb x (List.mem_cons_of_mem _
          (List.mem_of_mem_drop (List.mem_of_mem_drop hx)))) tail hrec
      have hge : 4 ≤ rest.length := by omega
      have hb0 : rest.getD 0 0 < 256 :=
        hb _ (List.mem_cons_of_mem _ (getD_mem_of_lt (by omega)))
      have hb1 : rest.getD 1 0 < 256 :=
        hb _ (List.mem_cons_of_mem _ (getD_mem_of_lt (by omega)))
      have hb2 : rest.getD 2 0 < 256 :=
        hb _ (List.mem_cons_of_mem _ (getD_mem_of_lt (by omega)))
      have hb3 : rest.getD 3 0 < 256 :=
        hb _ (List.mem_cons_of_mem _ (getD_mem_of_lt (by omega)))
      have hlen2 : ((rest.drop 4).take (rest.getD 0 0 + 256 * (rest.getD 1 0
          + 256 * (rest.getD 2 0 + 256 * rest.getD 3 0)))).length
          = rest.getD 0 0 + 256 * (rest.getD 1 0
          + 256 * (rest.getD 2 0 + 256 * rest.getD 3 0)) := by
        rw [List.length_take]; omega
      have hd0 : (rest.getD 0 0 + 256 * (rest.getD 1 0
          + 256 * (rest.getD 2 0 + 256 * rest.getD 3 0))) % 256 = rest.getD 0 0 := by
        omega
      have hd1 : (rest.getD 0 0 + 256 * (rest.getD 1 0
          + 256 * (rest.getD 2 0 + 256 * rest.getD 3 0))) / 256 % 256
          = rest.getD 1 0 := by omega
      have hd2 : (rest.getD 0 0 + 256 * (rest.getD 1 0
          + 256 * (rest.getD 2 0 + 256 * rest.getD 3 0))) / 65536 % 256
          = rest.getD 2 0 := by omega
      have hd3 : (rest.getD 0 0 + 256 * (rest.getD 1 0
          + 256 * (rest.getD 2 0 + 256 * rest.getD 3 0))) / 16777216 % 256
          = rest.getD 3 0 := by omega
      refine ⟨?_, ?_⟩
      · show save_op ⟨.pushdata4,
            (rest.drop 4).take (rest.getD 0 0 + 256 * (rest.getD 1 0
              + 256 * (rest.getD 2 0 + 256 * rest.getD 3 0)))⟩
            ++ (tail.map save_op).flatten = 78 :: rest
        rw [hflat]
        show 78
            :: ((rest.drop 4).take (rest.getD 0 0 + 256 * (rest.getD 1 0
              + 256 * (rest.getD 2 0 + 256 * rest.getD 3 0)))).length % 256
            :: ((rest.drop 4).take (rest.getD 0 0 + 256 * (rest.getD 1 0
              + 256 * (rest.getD 2 0 + 256 * rest.getD 3 0)))).length / 256 % 256
            :: ((rest.drop 4).take (rest.getD 0 0 + 256 * (rest.getD 1 0
              + 256 * (rest.getD 2 0 + 256 * rest.getD 3 0)))).length / 65536 % 256
            :: ((rest.drop 4).take (rest.getD 0 0 + 256 * (rest.getD 1 0
              + 256 * (rest.getD 2 0 + 256 * rest.getD 3 0)))).length / 16777216 % 256
            :: ((rest.drop 4).take (rest.getD 0 0 + 256 * (rest.getD 1 0
              + 256 * (rest.getD 2 0 + 256 * rest.getD 3 0)))
                ++ (rest.drop 4).drop (rest.getD 0 0 + 256 * (rest.getD 1 0
              + 256 * (rest.getD 2 0 + 256 * rest.getD 3 0))))
            = 78 :: rest
        rw [hlen2, List.take_append_drop, hd0, hd1, hd2, hd3, getD_four_cons_drop hge]
      · intro op hop
        rcases List.mem_cons.1 hop with h | h
        · subst h; simp
        · exact hraw op h
  | case17 b rest h1 h2 h3 h4 h5 ih =>
      intro hb ops hok
      rw [parseLoop.eq_def] at hok
      simp only [if_neg h1, if_neg h2, if_neg h3, if_neg h4, if_neg h5] at hok
      obtain ⟨tail, hrec, rfl⟩ := consRes_ok hok
      obtain ⟨hflat, hraw⟩ := ih (fun x hx => hb x (List.mem_cons_of_mem _ hx)) tail hrec
      refine ⟨?_, ?_⟩
      · show save_op ⟨Opcode.fromByte b, []⟩ ++ (tail.map save_op).flatten = b :: rest
        rw [hflat]
        unfold save_op
        rw [if_neg (by
          intro hc
          exact Opcode.fromByte_ne_special b (by simpa using hc))]
        rw [metadata_fromByte]
        show (Opcode.fromByte b).toByte :: rest = b :: rest
        rw [Opcode.toByte_fromByte]
      · intro op hop
        rcases List.mem_cons.1 hop with h | h
        · subst h
          exact Opcode.fromByte_ne_raw_data b
        · exact hraw op h

/-- C4: for every byte string `b` (of octets) that `parse_script` fully
consumes into a non-empty script, `save_script (parse_script b) = b`; and
for every parsed script that is not a `RAW_DATA` coinbase carrier,
`parse_script (save_script s) = s`. -/
theorem parse_save_roundtrip (b : List Nat) (ops : List Operation)
    (hb : ∀ x ∈ b, x < 256) (hp : parse_script b = some ops) :
    (ops ≠ [] → save_script ops = b)
    ∧ ((∀ d, ops ≠ [⟨Opcode.raw_data, d⟩]) →
        parse_script (save_script ops) = some ops) := by
  unfold parse_script at hp
  rcases hpl : parseLoop b with _ | _ | ops'
  · rw [hpl] at hp; simp at hp
  · rw [hpl] at hp
    simp only [Option.some.injEq] at hp
    subst hp
    refine ⟨fun hne => absurd rfl hne, fun _ => ?_⟩
    show parse_script (save_script []) = some []
    unfold save_script parse_script
    rw [parseLoop_nil]
  · rw [hpl] at hp
    simp only [Option.some.injEq] at hp
    subst hp
    obtain ⟨hflat, hraw⟩ := parseLoop_save b hb _ hpl
    have hsave : ops' ≠ [] → save_script ops' = b := by
      intro hne
      cases ops' with
      | nil => exact absurd rfl hne
      | cons op0 tl =>
          unfold save_script
          show (if op0.code = Opcode.raw_data then op0.data
            else ((op0 :: tl).map save_op).flatten) = b
          rw [if_neg (hraw op0 (List.mem_cons_self _ _))]
          exact hflat
    refine ⟨hsave, fun _ => ?_⟩
    cases hempty : ops' with
    | nil =>
        show parse_script (save_script []) = some []
        unfold save_script parse_script
        rw [parseLoop_nil]
    | cons op0 tl =>
        rw [← hempty, hsave (by rw [hempty]; exact List.cons_ne_nil _ _)]
        unfold parse_script
        rw [hpl]

/-- Witness for C4 at the one-byte script `[0x51]` (`OP_1`). -/
theorem parse_save_roundtrip_w :
    parse_script [81] = some [⟨Opcode.op_1, []⟩]
    ∧ save_script [⟨Opcode.op_1, []⟩] = [81]
    ∧ parse_script (save_script [⟨Opcode.op_1, []⟩]) = some [⟨Opcode.op_1, []⟩] := by
  have hp : parse_script [81] = some [⟨Opcode.op_1, []⟩] := by
    unfold parse_script
    rw [parseLoop.eq_def]
    norm_num
    rw [parseLoop_nil]
    rfl
  have h := parse_save_roundtrip [81] [⟨Opcode.op_1, []⟩] (by decide) hp
  exact ⟨hp, h.1 (by simp), h.2 (by intro d hd; simp at hd)⟩

/-! ## C5: CHECKMULTISIG matching -/

/-- The spec's success condition for the multisignature walk: every
signature is matched, in (weakly) ascending pubkey order, scanning only
forward from the previously matched key (inclusive, as the source resumes
from `pubkey_current`). -/
def MonoMatch (v : List Nat → List Nat → Bool) :
    List (List Nat) → List (List Nat) → Prop
  | [], _ => True
  | s :: ss, pks =>
      ∃ n, n < pks.length ∧ v s (pks.getD n []) = true ∧ MonoMatch v ss (pks.drop n)

/-- Step equation: a verifying head key commits the current signature. -/
theorem matchSigs_cons_true {ver : List Nat → List Nat → Option Bool}
    {s pk : List Nat} {ss pks : List (List Nat)} (h : ver s pk = some true) :
    matchSigs ver (s :: ss) (pk :: pks) = matchSigs ver ss (pk :: pks) := by
  simp only [matchSigs, scanKeys, h]

/-- Step equation: a failing head key with no keys left fails the whole
operator. -/
theorem matchSigs_cons_false_nil {ver : List Nat → List Nat → Option Bool}
    {s pk : List Nat} {ss : List (List Nat)} (h : ver s pk = some false) :
    matchSigs ver (s :: ss) [pk] = some false := by
  simp only [matchSigs, scanKeys, h]
  rfl

/-- Step equation: a failing head key advances the scan. -/
theorem matchSigs_cons_false {ver : List Nat → List Nat → Option Bool}
    {s pk : List Nat} {ss pks : List (List Nat)} (h : ver s pk = some false)
    (hne : pks ≠ []) :
    matchSigs ver (s :: ss) (pk :: pks) = matchSigs ver (s :: ss) pks := by
  have hscan : scanKeys ver s (pk :: pks) = scanKeys ver s pks := by
    simp only [scanKeys, h]
    simp [hne]
  simp only [matchSigs, hscan]

/-- A monotone matching inside a suffix extends to the whole key list. -/
theorem MonoMatch_of_drop (v : List Nat → List Nat → Bool)
    (ss pks : List (List Nat)) (k : Nat)
    (h : MonoMatch v ss (pks.drop k)) : MonoMatch v ss pks := by
  cases ss with
  | nil => trivial
  | cons s' ss' =>
      obtain ⟨m, hm, hv, hrest⟩ := h
      rw [List.length_drop] at hm
      refine ⟨k + m, by omega, ?_, ?_⟩
      · rw [List.getD_eq_getElem?_getD, ← List.getElem?_drop,
          ← List.getD_eq_getElem?_getD]
        exact hv
      · rw [List.drop_drop] at hrest
        exact hrest

/-- The matching loop (with a total verifier) succeeds exactly when a
monotone matching exists. -/
theorem matchSigs_true_iff (v : List Nat → List Nat → Bool) :
    ∀ (sigs pks : List (List Nat)),
      (matchSigs (fun a b => some (v a b)) sigs pks = some true
        ↔ MonoMatch v sigs pks) := by
  intro sigs
  induction sigs with
  | nil => intro pks; simp [matchSigs, MonoMatch]
  | cons s ss ihs =>
      intro pks
      induction pks with
      | nil =>
          simp [matchSigs, scanKeys, MonoMatch]
      | cons pk pks ihp =>
          by_cases hv : v s pk
          · rw [matchSigs_cons_true (by rw [hv]), ihs (pk :: pks)]
            constructor
            · intro h
              exact ⟨0, by simp, by simpa using hv, h⟩
            · rintro ⟨n, hn, hvn, hrest⟩
              exact MonoMatch_of_drop v ss (pk :: pks) n hrest
          · have hv' : v s pk = false := by
              cases hb : v s pk
              · rfl
              · exact absurd hb hv
            cases pks with
            | nil =>
                rw [matchSigs_cons_false_nil (by rw [hv'])]
                constructor
                · intro h; simp at h
                · rintro ⟨n, hn, hvn, hrest⟩
                  have hn0 : n = 0 := by simpa using hn
                  subst hn0
                  exact absurd (by simpa using hvn) hv
            | cons pk2 pks2 =>
                rw [matchSigs_cons_false (by rw [hv']) (by simp), ihp]
                constructor
                · rintro ⟨n, hn, hvn, hrest⟩
                  refine ⟨n + 1, by simpa using hn, by simpa using hvn, ?_⟩
                  simpa using hrest
                · rintro ⟨n, hn, hvn, hrest⟩
                  cases n with
                  | zero => exact absurd (by simpa using hvn) hv
                  | succ m =>
                      refine ⟨m, by simpa using hn, by simpa using hvn, ?_⟩
                      simpa using hrest

/-- With a total verifier, the scan of a non-empty key list never hits
the out-of-bounds read: it either exhausts the keys or returns a
non-empty suffix. -/
theorem scanKeys_total (v : List Nat → List Nat → Bool) (s : List Nat) :
    ∀ pks : List (List Nat), pks ≠ [] →
      scanKeys (fun a b => some (v a b)) s pks = some none
      ∨ ∃ pks', pks' ≠ []
          ∧ scanKeys (fun a b => some (v a b)) s pks = some (some pks') := by
  intro pks
  induction pks with
  | nil => intro h; exact absurd rfl h
  | cons pk pks ih =>
      intro _
      by_cases hv : v s pk
      · refine Or.inr ⟨pk :: pks, by simp, ?_⟩
        simp only [scanKeys, hv]
      · have hv' : v s pk = false := by
          cases hb : v s pk
          · rfl
          · exact absurd hb hv
        cases pks with
        | nil =>
            refine Or.inl ?_
            simp only [scanKeys, hv']
            rfl
        | cons pk2 pks2 =>
            have hstep : scanKeys (fun a b => some (v a b)) s (pk :: pk2 :: pks2)
                = scanKeys (fun a b => some (v a b)) s (pk2 :: pks2) := by
              simp only [scanKeys, hv']
              simp
            rw [hstep]
            exact ih (by simp)

/-- With a total verifier and a non-empty key list (or no signatures),
the matching loop returns a value. -/
theorem matchSigs_total (v : List Nat → List Nat → Bool) :
    ∀ (sigs pks : List (List Nat)), (pks ≠ [] ∨ sigs = []) →
      ∃ b, matchSigs (fun a b2 => some (v a b2)) sigs pks = some b := by
  intro sigs
  induction sigs with
  | nil => intro pks _; exact ⟨true, rfl⟩
  | cons s ss ih =>
      intro pks hne
      have hpk : pks ≠ [] := by
        rcases hne with h | h
        · exact h
        · exact absurd h (by simp)
      rcases scanKeys_total v s pks hpk with hscan | ⟨pks', hpne, hscan⟩
      · exact ⟨false, by simp only [matchSigs, hscan]⟩
      · obtain ⟨b, hb⟩ := ih pks' (Or.inl hpne)
        exact ⟨b, by simp only [matchSigs, hscan]; exact hb⟩

/-- The scan only returns suffixes: every member of the returned key list
was a member of the input. -/
theorem scanKeys_subset (f : List Nat → List Nat → Option Bool) (s : List Nat) :
    ∀ pks pks', scanKeys f s pks = some (some pks') → ∀ x ∈ pks', x ∈ pks := by
  intro pks
  induction pks with
  | nil => intro pks' h; simp [scanKeys] at h
  | cons pk pks ih =>
      intro pks' h x hx
      rcases hf : f s pk with _ | b
      · simp only [scanKeys, hf] at h
        exact Option.noConfusion h
      · cases b with
        | true =>
            simp only [scanKeys, hf] at h
            injection h with h1
            injection h1 with h2
            rw [← h2] at hx
            exact hx
        | false =>
            by_cases hpe : pks.isEmpty
            · simp only [scanKeys, hf, if_pos hpe] at h
              injection h with h1
              exact Option.noConfusion h1
            · simp only [scanKeys, hf, if_neg hpe] at h
              exact List.mem_cons_of_mem _ (ih pks' h x hx)

/-- The matching loop only inspects pairs from the given signature and
key lists, so verifiers that agree there are interchangeable. -/
theorem matchSigs_congr (f g : List Nat → List Nat → Option Bool) :
    ∀ (sigs pks : List (List Nat)),
      (∀ s pk, s ∈ sigs → pk ∈ pks → f s pk = g s pk) →
      matchSigs f sigs pks = matchSigs g sigs pks := by
  intro sigs
  induction sigs with
  | nil => intro pks _; rfl
  | cons s ss ih =>
      intro pks hfg
      have hscan : scanKeys f s pks = scanKeys g s pks := by
        clear ih
        induction pks with
        | nil => rfl
        | cons pk pks ihp =>
            simp only [scanKeys, hfg s pk (List.mem_cons_self _ _)
              (List.mem_cons_self _ _)]
            rcases g s pk with _ | b
            · rfl
            · cases b with
              | true => rfl
              | false =>
                  by_cases hpe : pks.isEmpty
                  · rw [if_pos hpe, if_pos hpe]
                  · rw [if_neg hpe, if_neg hpe]
                    exact ihp fun s2 pk2 hs2 hpk2 =>
                      hfg s2 pk2 hs2 (List.mem_cons_of_mem _ hpk2)
      simp only [matchSigs, hscan]
      rcases hg : scanKeys g s pks with _ | r
      · rfl
      · cases r with
        | none => rfl
        | some pks' =>
            exact ih pks' fun s2 pk2 hs2 hpk2 =>
              hfg s2 pk2 (List.mem_cons_of_mem _ hs2)
                (scanKeys_subset g s pks pks' hg pk2 hpk2)

/-- C5: a `CHECKMULTISIG(VERIFY)` execution that pops a pubkey section
and then a signature section pops nothing else (the final stack is
exactly the items below the two counted sections — no extra dummy item),
and it succeeds exactly when the signatures can be matched in ascending
pubkey order scanning forward (so it fails when the pubkey list is
exhausted before some signature finds a verifying key). -/
theorem checkmultisig_sections_and_matching
    (prim : Prim) (tx : Tx) (i : Nat) (ops : List Operation)
    (cN cM : List Nat) (pks sigs rest : List (List Nat))
    (aa : List (List Nat)) (ca : List Bool) (cb : Nat)
    (v : List Nat → List Nat → Bool)
    (hcN : cN.length ≤ 4) (hcNv : bn_uint32 cN = pks.length)
    (hcM : cM.length ≤ 4) (hcMv : bn_uint32 cM = sigs.length)
    (hne : pks ≠ [] ∨ sigs = [])
    (hv : ∀ s pk, s ∈ sigs → pk ∈ pks →
      check_signature prim s pk (multisig_script_code ops cb sigs) tx i
        = some (v s pk)) :
    ∃ b, op_checkmultisigverify prim tx i ops
        ⟨cN :: (pks ++ cM :: (sigs ++ rest)), aa, ca, cb⟩
        = some (b, ⟨rest, aa, ca, cb⟩)
      ∧ (b = true ↔ MonoMatch v sigs pks) := by
  have hrs1 : read_section (cN :: (pks ++ cM :: (sigs ++ rest)))
      = (some pks, cM :: (sigs ++ rest)) := by
    unfold read_section
    dsimp only
    rw [if_neg (by omega), hcNv,
      if_neg (by simp only [List.length_append, List.length_cons]; omega),
      List.take_left' rfl, List.drop_left' rfl]
  have hrs2 : read_section (cM :: (sigs ++ rest)) = (some sigs, rest) := by
    unfold read_section
    dsimp only
    rw [if_neg (by omega), hcMv,
      if_neg (by simp only [List.length_append, List.length_cons]; omega),
      List.take_left' rfl, List.drop_left' rfl]
  obtain ⟨b, hb⟩ := matchSigs_total v sigs pks hne
  have hcongr : matchSigs
      (fun s pk => check_signature prim s pk
        (multisig_script_code ops cb sigs) tx i) sigs pks
      = matchSigs (fun a b2 => some (v a b2)) sigs pks :=
    matchSigs_congr _ _ sigs pks fun s pk hs hpk => hv s pk hs hpk
  refine ⟨b, ?_, ?_⟩
  · unfold op_checkmultisigverify
    dsimp only
    rw [hrs1]
    dsimp only
    rw [hrs2]
    dsimp only
    rw [hcongr, hb]
  · constructor
    · intro hb'
      exact (matchSigs_true_iff v sigs pks).mp (by rw [← hb']; exact hb)
    · intro hm
      have h2 := (matchSigs_true_iff v sigs pks).mpr hm
      rw [hb] at h2
      injection h2

/-- Witness for C5: one pubkey, one signature, a residual stack item, and
a verifier that always fails (the public-key load of `prim0` fails), so
the operator pops exactly the two sections and returns false. -/
theorem checkmultisig_sections_and_matching_w :
    op_checkmultisigverify prim0 tx0 0 [] ⟨[[1], [5], [1], [6], [9]], [], [], 0⟩
      = some (false, ⟨[[9]], [], [], 0⟩) := by
  obtain ⟨b, hop, hiff⟩ := checkmultisig_sections_and_matching prim0 tx0 0 []
    [1] [1] [[5]] [[6]] [[9]] [] [] 0 (fun _ _ => false)
    (by decide) (by decide) (by decide) (by decide)
    (Or.inl (by simp)) (fun s pk _ _ => rfl)
  have hbf : b = false := by
    cases b with
    | false => rfl
    | true =>
        obtain ⟨n, hn, hvn, _⟩ := hiff.mp rfl
        exact absurd hvn (by simp)
  rw [hbf] at hop
  exact hop
